import Mathlib

/-!
Verification of the redmine-wiki-exporter sources (`main.js`, `fix-links.js`,
`create-indexes.js`) against their natural-language specification.

The JavaScript code is shallowly embedded: every pure computation becomes a
Lean function, the event-loop/timer behaviour of the `Throttle` class and of
`retryRequest` is embedded as an explicit deterministic timeline, and the
callback-based HTTP handlers become total functions from the observed
response to an outcome (callback invoked with a value, or skipped).
Strings are modelled as `List Char`; the regex-based link rewriting of
`fix-links.js` is embedded as explicit character scanners that reproduce the
leftmost-match / lazy-quantifier behaviour of the concrete patterns used by
the source.
-/

namespace RedmineExporter

/-! ## Throttle (main.js lines 11-37)

`Throttle.enqueue` pushes a closure on a FIFO queue (`queue.push` /
`queue.shift`) and a single runner processes it: before running a dequeued
task it waits `Math.max(0, minIntervalMs - (now - lastTime))`, sets
`lastTime` to the moment the task starts, runs the task (its synchronous
part, of some duration), and then immediately reprocesses the queue.

The timeline is embedded deterministically.  A task is a record of an
identifier, the time at which it was enqueued and the duration of its
synchronous body.  Enqueue times are assumed nondecreasing (a single JS
thread enqueues them in order); under that assumption the runner picks up
the head task at `max (previous finish) (enqueue time)` and starts it after
the residual wait.  Natural-number truncated subtraction coincides with the
source's `Math.max(0, ...)` clamp. -/

structure ThrottleTask where
  id : Nat
  enq : Nat
  dur : Nat
deriving Repr, DecidableEq

/-- One run of the Throttle's single active-runner loop: returns, in
execution order, the pairs (task id, execution start time). -/
def throttleRun (minIntervalMs : Nat) : Nat → Nat → List ThrottleTask → List (Nat × Nat)
  | _, _, [] => []
  | lastTime, free, t :: rest =>
    let avail := max free t.enq
    let start := avail + (minIntervalMs - (avail - lastTime))
    (t.id, start) :: throttleRun minIntervalMs start (start + t.dur) rest

/-- The Throttle object of main.js line 40: `new Throttle(1200)`. -/
def throttleMinIntervalMs : Nat := 1200

/-! ## retryRequest (main.js lines 43-65)

`retryRequest(requestFn, maxRetries = 5, baseDelay = 5000)` invokes
`requestFn` with a callback receiving `(error, response, body)`.  A
transient outcome is `error.code === 'ECONNREFUSED' || 'ECONNRESET'`, or a
response with status 429 or 503.  While the outcome is transient and
`attempt < maxRetries`, it increments `attempt`, waits
`baseDelay * 2^(attempt-1)` on a plain `setTimeout` (not through the
Throttle), and retries; otherwise it resolves with the raw outcome.

`requestFn` is embedded as a function from the 0-based attempt index to the
observed outcome; the embedding returns the resolved outcome, the number of
invocations of `requestFn` performed, and the list of backoff delays
waited. -/

inductive ErrCode where
  | ECONNREFUSED
  | ECONNRESET
  | otherErr
deriving Repr, DecidableEq

structure ReqOutcome (β : Type) where
  error : Option ErrCode
  status : Option Nat
  body : β
deriving Repr, DecidableEq

/-- `isConnectionRefused || isRateLimited` of main.js lines 49-52. -/
def isTransient {β : Type} (o : ReqOutcome β) : Bool :=
  (match o.error with
   | some .ECONNREFUSED => true
   | some .ECONNRESET => true
   | _ => false)
  || (o.status = some 429 || o.status = some 503)

/-- The retry loop of `retryRequest`: `attempt` is the number of attempts
already made (the source's `attempt` counter), `remaining` is
`maxRetries - attempt`.  The delay before the retry scheduled after attempt
index `attempt` is `baseDelay * 2^attempt` (the source increments `attempt`
first and waits `baseDelay * 2^(attempt-1)`). -/
def retryGo {β : Type} (req : Nat → ReqOutcome β) (baseDelay : Nat) :
    Nat → Nat → ReqOutcome β × Nat × List Nat
  | attempt, 0 => (req attempt, attempt + 1, [])
  | attempt, remaining + 1 =>
    let o := req attempt
    if isTransient o then
      let delay := baseDelay * 2 ^ attempt
      let r := retryGo req baseDelay (attempt + 1) remaining
      (r.1, r.2.1, delay :: r.2.2)
    else
      (o, attempt + 1, [])

/-- `retryRequest(requestFn, maxRetries, baseDelay)`: resolved outcome,
number of `requestFn` invocations, backoff delays waited. -/
def retryRequest {β : Type} (req : Nat → ReqOutcome β) (maxRetries baseDelay : Nat) :
    ReqOutcome β × Nat × List Nat :=
  retryGo req baseDelay 0 maxRetries

/-- Where each attempt of `retryRequest` is issued from.  The first attempt
runs synchronously in the caller's context (main.js line 63); every retry is
issued directly from the backoff `setTimeout` (line 56) — no constructor of
the embedding ever re-enqueues an attempt on the Throttle. -/
inductive AttemptSource where
  | caller
  | backoffTimer
  | throttleLane
deriving Repr, DecidableEq

/-- The sources of the K+1 attempts made when the first K outcomes are
transient. -/
def retryAttemptSources (retries : Nat) : List AttemptSource :=
  .caller :: List.replicate retries .backoffTimer

/-- Absolute time of attempt number `k` (0-based) of a `retryRequest` whose
first attempt starts at `start`: the sum of the backoff delays waited so
far. -/
def retryAttemptTime (start baseDelay : Nat) (k : Nat) : Nat :=
  start + ((List.range k).map (fun i => baseDelay * 2 ^ i)).sum

/-! ## The four network operations of the crawler (main.js)

Each operation issues exactly one logical HTTP request, wrapped in
`retryRequest`.  `getProjectListPage` (lines 112-143) and `getWikiPages`
(lines 145-172) run the retry-wrapped request inside `throttle.enqueue`;
`getWikiPage` (lines 174-194) and `getAttachment` (lines 196-210) await
`retryRequest` directly, with no `throttle.enqueue` around the request. -/

structure NetOp where
  path : String
  viaThrottle : Bool
  viaRetry : Bool
deriving Repr, DecidableEq

def NB_PROJECTS_PER_PAGE : Nat := 25

/-- main.js lines 112-119: request inside `throttle.enqueue`, via
`retryRequest`. -/
def getProjectListPageOp (page : Nat) : NetOp :=
  ⟨"/projects.json?offset=" ++ toString (page * NB_PROJECTS_PER_PAGE), true, true⟩

/-- main.js lines 145-150: request inside `throttle.enqueue`, via
`retryRequest`. -/
def getWikiPagesOp (identifier : String) : NetOp :=
  ⟨"/projects/" ++ identifier ++ "/wiki/index.json", true, true⟩

/-- main.js lines 174-181: `retryRequest` awaited directly; there is no
`throttle.enqueue` in `getWikiPage`. -/
def getWikiPageOp (identifier encodedPageName : String) : NetOp :=
  ⟨"/projects/" ++ identifier ++ "/wiki/" ++ encodedPageName ++ ".json?include=attachments",
   false, true⟩

/-- main.js lines 196-202: `retryRequest` awaited directly; there is no
`throttle.enqueue` in `getAttachment`. -/
def getAttachmentOp (id : Nat) : NetOp :=
  ⟨"/attachments/download/" ++ toString id, false, true⟩

/-- Number of tasks an operation contributes to the Throttle queue: one for
a throttled operation, none otherwise — never one per retry attempt. -/
def opThrottleTasks (op : NetOp) : Nat :=
  if op.viaThrottle then 1 else 0

/-! ## Pagination: getProjects (main.js lines 96-110)

`getProjects` fetches page 0, and whenever a page returns exactly
`NB_PROJECTS_PER_PAGE` entries it increments the page counter and fetches
the next page, accumulating entries in order; otherwise it invokes the
final callback with the accumulated list.  The listing source is embedded
as a function from page number to the entry list that page's request
delivers; `fuel` bounds the number of page requests the model unfolds. -/

def getProjectsPages {α : Type} (source : Nat → List α) : Nat → Nat → List α × List Nat
  | 0, _ => ([], [])
  | fuel + 1, page =>
    let pl := source page
    if pl.length = NB_PROJECTS_PER_PAGE then
      let r := getProjectsPages source fuel (page + 1)
      (pl ++ r.1, page * NB_PROJECTS_PER_PAGE :: r.2)
    else
      (pl, [page * NB_PROJECTS_PER_PAGE])

/-- `getProjects`: the accumulated project list and the list of offsets
requested, in request order. -/
def getProjects {α : Type} (source : Nat → List α) (fuel : Nat) : List α × List Nat :=
  getProjectsPages source fuel 0

/-! ## Error handling of the listing calls (main.js lines 112-172)

The response handler of `getProjectListPage` (lines 121-141) runs, in
order: `if (error)` log and stop; `else if (response && statusCode === 401)`
log and stop; `else if (response && statusCode !== 200)` log and stop;
`else if (body)` parse the body — on parse failure the `projects` variable
keeps its initial `[]` — and invoke the callback; `else` log and stop.
"Stop" means the continuation callback is never invoked.  The parsed body
is embedded as either a successfully parsed entry list or a parse error
(an HTML error page, say); `ParsedBody` covers exactly the outcomes the
handler distinguishes. -/

inductive ParsedBody (α : Type) where
  | ok (items : List α)
  | parseError
deriving Repr, DecidableEq

structure ListResp (α : Type) where
  error : Option ErrCode
  status : Option Nat
  body : Option (ParsedBody α)
deriving Repr, DecidableEq

/-- `response && response.statusCode !== 200` of main.js line 126. -/
def statusNot200 : Option Nat → Bool
  | some s => s ≠ 200
  | none => false

/-- Outcome of the `getProjectListPage` response handler: `some l` when the
continuation callback fires with list `l`, `none` when it never fires. -/
def handleListPage {α : Type} (r : ListResp α) : Option (List α) :=
  if r.error.isSome then none
  else if r.status = some 401 then none
  else if statusNot200 r.status then none
  else
    match r.body with
    | some (.ok l) => some l
    | some .parseError => some []
    | none => none

/-- Overall outcome of `getProjects` when the per-page responses are as
given: `completed` means the final callback of line 106 fires with the
accumulated list; `stalled page` means the handler of page `page` never
invoked its continuation, so the final callback never fires and none of the
already-accumulated projects is ever processed. -/
inductive DiscoveryOutcome (α : Type) where
  | completed (projects : List α)
  | stalled (page : Nat)
  | outOfFuel
deriving Repr, DecidableEq

def getProjectsOutcome {α : Type} (resp : Nat → ListResp α) :
    Nat → Nat → List α → DiscoveryOutcome α
  | 0, _, _ => .outOfFuel
  | fuel + 1, page, acc =>
    match handleListPage (resp page) with
    | none => .stalled page
    | some l =>
      if l.length = NB_PROJECTS_PER_PAGE then
        getProjectsOutcome resp fuel (page + 1) (acc ++ l)
      else
        .completed (acc ++ l)

/-! ## Per-unit fan-out (main.js lines 258-298)

Each project's pages and each page's attachments are processed by
independent callbacks: `pages.forEach(page => getWikiPage(...))` exports a
page only when `fullPage` is truthy (lines 264-268), and
`page.attachments.forEach(attachment => getAttachment(...))` writes an
attachment only when its fetch delivers a body (lines 293-297).  A fetch is
embedded as a function returning `none` when the unit's callback never
fires (network error, unparseable body, falsy page). -/

def processUnits {τ σ : Type} (fetch : τ → Option σ) (units : List τ) : List σ :=
  units.filterMap fetch

/-- The pages exported for one project, given the per-title fetch outcome. -/
def exportedPages {π : Type} (fetch : String → Option π) (titles : List String) : List π :=
  processUnits fetch titles

/-- The attachment files written for one page, given the per-attachment
fetch outcome. -/
def savedAttachments {γ : Type} (fetch : Nat → Option γ) (ids : List Nat) : List γ :=
  processUnits fetch ids

/-! ## Output directories (main.js lines 231-234, fix-links.js line 320,
create-indexes.js line 12)

main.js takes `config.outputDir` and appends a trailing `/` when missing;
fix-links.js and create-indexes.js both use the constant
`path.join(__dirname, 'output')`.  Paths are `List Char`; two paths name
the same directory when they agree up to one trailing slash. -/

def stripSlash (p : List Char) : List Char :=
  if p.getLast? = some '/' then p.dropLast else p

/-- main.js lines 231-234: the exporter's output directory derived from the
configured `outputDir`. -/
def mainOutputDir (cfgOutputDir : List Char) : List Char :=
  if cfgOutputDir.getLast? = some '/' then cfgOutputDir else cfgOutputDir ++ ['/']

/-- fix-links.js line 320: `path.join(__dirname, 'output')`. -/
def fixLinksOutputDir (dirname : List Char) : List Char :=
  dirname ++ ('/' :: "output".toList)

/-- create-indexes.js line 12: `path.join(__dirname, 'output')`. -/
def createIndexesOutputDir (dirname : List Char) : List Char :=
  dirname ++ ('/' :: "output".toList)

def sameTree (p q : List Char) : Prop :=
  stripSlash p = stripSlash q

instance (p q : List Char) : Decidable (sameTree p q) := by
  unfold sameTree; infer_instance

/-! ## String helpers shared by fix-links.js and create-indexes.js

`leadsWith n h` is "n is a prefix of h"; `endsWithLit s f` is JS
`f.endsWith(s)`; `containsSub n h` is JS `h.includes(n)`;
`replaceFirstSub n r h` is JS `h.replace(n, r)` with a plain-string first
argument (first occurrence only); `collapseWsGo`/`collapseWs` embed
`replace(/\s+/g, sep)` (each maximal whitespace run becomes one `sep`);
`removeWs` embeds `replace(/\s+/g, '')`. -/

def leadsWith : List Char → List Char → Bool
  | [], _ => true
  | _ :: _, [] => false
  | a :: as, b :: bs => a = b && leadsWith as bs

def endsWithLit (s f : List Char) : Bool :=
  leadsWith s.reverse f.reverse

def containsSub (n : List Char) : List Char → Bool
  | [] => n.isEmpty
  | c :: t => leadsWith n (c :: t) || containsSub n t

def replaceFirstSub (needle repl : List Char) : List Char → List Char
  | [] => if needle.isEmpty then repl else []
  | c :: rest =>
    if leadsWith needle (c :: rest) then repl ++ (c :: rest).drop needle.length
    else c :: replaceFirstSub needle repl rest

def collapseWsGo (sep : Char) : Bool → List Char → List Char
  | _, [] => []
  | prevWs, c :: rest =>
    if c.isWhitespace then
      (if prevWs then [] else [sep]) ++ collapseWsGo sep true rest
    else
      c :: collapseWsGo sep false rest

def collapseWs (sep : Char) (cs : List Char) : List Char :=
  collapseWsGo sep false cs

def removeWs (cs : List Char) : List Char :=
  cs.filter (fun c => !c.isWhitespace)

def toLowerStr (cs : List Char) : List Char :=
  cs.map Char.toLower

/-- Strip a literal prefix, the embedding of matching an escaped literal
(the configured server URL, `/projects/`, `/attachments/`, ...) inside the
fix-links.js regexes. -/
def parseLit : List Char → List Char → Option (List Char)
  | [], cs => some cs
  | _ :: _, [] => none
  | a :: as, b :: bs => if a = b then parseLit as bs else none

/-- `decodeURIComponent` restricted to single-byte escapes: each valid
`%XX` pair becomes the character with that code.  (The source's
`decodeURIComponent` additionally assembles multi-byte UTF-8 sequences and
throws `URIError` on malformed escapes; the claims under verification only
involve well-formed single-byte escapes, for which this embedding agrees,
and a malformed escape is kept literally here.) -/
def hexVal (c : Char) : Option Nat :=
  if '0' ≤ c ∧ c ≤ '9' then some (c.toNat - 48)
  else if 'A' ≤ c ∧ c ≤ 'F' then some (c.toNat - 55)
  else if 'a' ≤ c ∧ c ≤ 'f' then some (c.toNat - 87)
  else none

def decodePercent : List Char → List Char
  | [] => []
  | '%' :: h :: l :: rest =>
    match hexVal h, hexVal l with
    | some a, some b => Char.ofNat (16 * a + b) :: decodePercent rest
    | _, _ => '%' :: decodePercent (h :: l :: rest)
  | c :: rest => c :: decodePercent rest

/-- `encodeURIComponent` on characters with code < 256 (the claims only
involve ASCII names): everything but `A-Z a-z 0-9 - _ . ! ~ * ' ( )` is
escaped as an uppercase `%XX` pair. -/
def isUnreservedURI (c : Char) : Bool :=
  c.isAlphanum || ['-', '_', '.', '!', '~', '*', '\'', '(', ')'].contains c

def hexDigit (n : Nat) : Char :=
  if n < 10 then Char.ofNat (48 + n) else Char.ofNat (55 + n)

def encodeURIComponent : List Char → List Char
  | [] => []
  | c :: rest =>
    if isUnreservedURI c then c :: encodeURIComponent rest
    else '%' :: hexDigit (c.toNat / 16 % 16) :: hexDigit (c.toNat % 16) :: encodeURIComponent rest

/-! ## LinkRewriter category 1 (fix-links.js lines 348-359)

The pattern `\[\[([^\]]+)\]\]` is deterministic: at a position it matches
iff the text starts with `[[`, continues with a nonempty run of
non-`]` characters, and that run is followed by `]]`.  The replacement
splits a page name containing `:` as JS `split(':', 2)` does (everything
after a second `:` is dropped) and turns whitespace runs of the page part
into single underscores. -/

def isNotRBracket (c : Char) : Bool := c ≠ ']'

def isNotRParen (c : Char) : Bool := c ≠ ')'

def isNotSlash (c : Char) : Bool := c ≠ '/'

/-- The character class `[^)#?]` of the wiki-link pattern. -/
def isPageChar (c : Char) : Bool := c ≠ ')' && c ≠ '#' && c ≠ '?'

def matchWikiAt : List Char → Option (List Char × List Char)
  | a :: b :: cs =>
    if a = '[' ∧ b = '[' then
      let run := cs.takeWhile isNotRBracket
      if run.isEmpty then none
      else
        match cs.dropWhile isNotRBracket with
        | ']' :: ']' :: rest => some (run, rest)
        | _ => none
    else none
  | _ => none

/-- `true` iff the text contains two adjacent `[` characters, i.e. a
position at which the category-1 pattern could begin to match. -/
def hasDoubleBracket : List Char → Bool
  | a :: b :: cs => (a = '[' ∧ b = '[') || hasDoubleBracket (b :: cs)
  | _ => false

def wikiRepl (pageName : List Char) : List Char :=
  if pageName.contains ':' then
    let project := pageName.takeWhile (· ≠ ':')
    let page := ((pageName.dropWhile (· ≠ ':')).drop 1).takeWhile (· ≠ ':')
    let pageFile := collapseWs '_' page
    '[' :: page ++ ']' :: '(' :: '.' :: '.' :: '/' :: project ++ '/' :: pageFile ++ ".md)".toList
  else
    let pageFile := collapseWs '_' pageName
    '[' :: pageName ++ ']' :: '(' :: pageFile ++ ".md)".toList

def scanWiki : Nat → List Char → List Char
  | 0, cs => cs
  | _ + 1, [] => []
  | fuel + 1, c :: rest =>
    match matchWikiAt (c :: rest) with
    | some (name, after) => wikiRepl name ++ scanWiki fuel after
    | none => c :: scanWiki fuel rest

/-- The category-1 pass: `content.replace(/\[\[([^\]]+)\]\]/g, ...)`. -/
def replaceWikiSyntax (cs : List Char) : List Char :=
  scanWiki cs.length cs

/-! ## Lazy bracket scan shared by categories 2 and 3

Both remaining patterns have the shape `...\[.*?\]\(tail`: a lazy run of
non-newline characters, then `](`, then a tail parser.  JS tries the
shortest text first and, when the tail fails, extends the text one
character at a time, so the scan below visits each candidate `](`
left-to-right and keeps the first one whose tail parses. -/

def lazySearch {β : Type} (k : List Char → Option β) : Nat → List Char → Option (List Char × β)
  | 0, _ => none
  | _ + 1, [] => none
  | fuel + 1, c :: rest =>
    if c = '\n' then none
    else
      let cont : Option (List Char × β) :=
        match lazySearch k fuel rest with
        | some (t, b) => some (c :: t, b)
        | none => none
      if c = ']' then
        match rest with
        | r :: rest2 =>
          if r = '(' then
            match k rest2 with
            | some b => some ([], b)
            | none => cont
          else cont
        | [] => cont
      else cont

/-! ## LinkRewriter category 2 (fix-links.js lines 362-381)

`(\[.*?\])\(ESCAPEDURL\/projects\/([^\/]+)\/wiki\/([^)#?]+)(#[^)]+)?\)`.
After the literal server URL and `/projects/`, the project is a nonempty
run of non-`/` characters followed by the literal `/wiki/`; the page is a
nonempty run of characters outside `)#?`; an optional anchor is `#`
followed by a nonempty run of non-`)` characters; then the closing `)`.
All three runs are deterministic: the character class excludes the
character the following literal starts with, so backtracking inside the
tail cannot produce a different split. -/

def parseProjWiki (url : List Char) (cs : List Char) :
    Option ((List Char × List Char × List Char) × List Char) :=
  match parseLit url cs with
  | none => none
  | some cs1 =>
    match parseLit "/projects/".toList cs1 with
    | none => none
    | some cs2 =>
      let proj := cs2.takeWhile isNotSlash
      if proj.isEmpty then none
      else
        match parseLit "/wiki/".toList (cs2.dropWhile isNotSlash) with
        | none => none
        | some cs3 =>
          let page := cs3.takeWhile isPageChar
          if page.isEmpty then none
          else
            match cs3.dropWhile isPageChar with
            | c :: cs4 =>
              if c = ')' then some ((proj, page, []), cs4)
              else if c = '#' then
                let a := cs4.takeWhile isNotRParen
                if a.isEmpty then none
                else
                  match cs4.dropWhile isNotRParen with
                  | c2 :: rest =>
                    if c2 = ')' then some ((proj, page, '#' :: a), rest) else none
                  | [] => none
              else none
            | [] => none

def wikiLinkRepl (currentProject : List Char)
    (t : List Char) (proj page anchor : List Char) : List Char :=
  let rel :=
    if proj = currentProject then page ++ ".md".toList
    else '.' :: '.' :: '/' :: proj ++ '/' :: page ++ ".md".toList
  '[' :: t ++ ']' :: '(' :: (rel ++ anchor) ++ [')']

def scanWikiLinks (url currentProject : List Char) : Nat → List Char → List Char
  | 0, cs => cs
  | _ + 1, [] => []
  | fuel + 1, c :: rest =>
    if c = '[' then
      match lazySearch (parseProjWiki url) rest.length rest with
      | some (t, ((proj, page, anchor), after)) =>
        wikiLinkRepl currentProject t proj page anchor ++ scanWikiLinks url currentProject fuel after
      | none => c :: scanWikiLinks url currentProject fuel rest
    else c :: scanWikiLinks url currentProject fuel rest

/-- The category-2 pass: `content.replace(wikiLinkRegex, ...)`. -/
def replaceAbsoluteWikiLinks (url currentProject : List Char) (cs : List Char) : List Char :=
  scanWikiLinks url currentProject cs.length cs

/-- Categories 1 and 2 in the order processMarkdownFile applies them. -/
def rewriteCat12 (url currentProject : List Char) (cs : List Char) : List Char :=
  replaceAbsoluteWikiLinks url currentProject (replaceWikiSyntax cs)

/-! ## LinkRewriter category 3 (fix-links.js lines 387-421)

`(!\[.*?\])\(ESCAPEDURL\/attachments\/(?:download\/)?(\d+)\/([^)]+)\)`.
The filesystem visible to the pass is embedded as the ordered directory
listing of the output root: a list of `(project directory name, names of
the files in its attachments directory)` in `fs.readdirSync` order;
`currentProject` is the directory containing the file being processed.
The local check of lines 397-399 looks the decoded name up in the current
project's attachments; the fallback of lines 402-414 walks every project
directory in listing order (the current one included) and takes the first
hit; otherwise the original matched text is kept and a warning counted. -/

def parseAttachmentIdFn (dl : Bool) (cs3 : List Char) :
    Option ((Bool × List Char × List Char) × List Char) :=
  let id := cs3.takeWhile Char.isDigit
  if id.isEmpty then none
  else
    match cs3.dropWhile Char.isDigit with
    | c :: cs4 =>
      if c = '/' then
        let fn := cs4.takeWhile isNotRParen
        if fn.isEmpty then none
        else
          match cs4.dropWhile isNotRParen with
          | c2 :: rest => if c2 = ')' then some ((dl, id, fn), rest) else none
          | [] => none
      else none
    | [] => none

def parseAttachment (url : List Char) (cs : List Char) :
    Option ((Bool × List Char × List Char) × List Char) :=
  match parseLit url cs with
  | none => none
  | some cs1 =>
    match parseLit "/attachments/".toList cs1 with
    | none => none
    | some cs2 =>
      match parseLit "download/".toList cs2 with
      | some r => parseAttachmentIdFn true r
      | none => parseAttachmentIdFn false cs2

def attachmentsOf (fsDirs : List (List Char × List (List Char))) (proj : List Char) :
    List (List Char) :=
  ((fsDirs.find? (fun pr => pr.1 == proj)).map Prod.snd).getD []

/-- Lines 396-418 minus the text splicing: `some target` is the new link
target, `none` means the attachment was found nowhere. -/
def resolveAttachment (fsDirs : List (List Char × List (List Char)))
    (currentProject decoded : List Char) : Option (List Char) :=
  if (attachmentsOf fsDirs currentProject).contains decoded then
    some ("attachments/".toList ++ encodeURIComponent decoded)
  else
    match fsDirs.find? (fun pr => pr.2.contains decoded) with
    | some pr => some ('.' :: '.' :: '/' :: pr.1 ++ '/' :: "attachments/".toList ++ encodeURIComponent decoded)
    | none => none

/-- The original matched text, reproduced verbatim when the attachment is
found nowhere (the replacer returns `match`). -/
def attachmentOriginal (url : List Char) (t : List Char) (dl : Bool) (id fn : List Char) :
    List Char :=
  '!' :: '[' :: t ++ ']' :: '(' :: url ++ "/attachments/".toList
    ++ (if dl then "download/".toList else []) ++ id ++ '/' :: fn ++ [')']

def scanAttachments (url : List Char) (fsDirs : List (List Char × List (List Char)))
    (currentProject : List Char) : Nat → List Char → List Char × Nat
  | 0, cs => (cs, 0)
  | _ + 1, [] => ([], 0)
  | fuel + 1, c :: rest =>
    match rest with
    | d :: rest1 =>
      if c = '!' ∧ d = '[' then
        match lazySearch (parseAttachment url) rest1.length rest1 with
        | some (t, ((dl, id, fn), after)) =>
          let decoded := decodePercent fn
          let r := scanAttachments url fsDirs currentProject fuel after
          match resolveAttachment fsDirs currentProject decoded with
          | some tgt => ('!' :: '[' :: t ++ ']' :: '(' :: tgt ++ ')' :: r.1, r.2)
          | none => (attachmentOriginal url t dl id fn ++ r.1, r.2 + 1)
        | none =>
          let r := scanAttachments url fsDirs currentProject fuel rest
          (c :: r.1, r.2)
      else
        let r := scanAttachments url fsDirs currentProject fuel rest
        (c :: r.1, r.2)
    | [] =>
      let r := scanAttachments url fsDirs currentProject fuel rest
      (c :: r.1, r.2)

/-- The category-3 pass: rewritten content and number of warnings
emitted. -/
def replaceAttachmentLinks (url : List Char) (fsDirs : List (List Char × List (List Char)))
    (currentProject : List Char) (cs : List Char) : List Char × Nat :=
  scanAttachments url fsDirs currentProject cs.length cs

/-! ## IndexBuilder (create-indexes.js lines 27-119)

A project directory is embedded as its ordered entry list
`(file name, file content)`.  `findIndexCandidate` receives the file names;
`createProjectIndexAction` returns the content written to `Index.md`, or
`none` when nothing is written; `projectIndexResult` is the directory after
the pass. -/

def candidateVariations (projectName : List Char) : List (List Char) :=
  ["Wiki.md".toList, "Index.md".toList,
   projectName ++ ".md".toList,
   collapseWs '_' projectName ++ ".md".toList,
   collapseWs '-' projectName ++ ".md".toList,
   removeWs projectName ++ ".md".toList]

def findIndexCandidate (fileNames : List (List Char)) (projectName : List Char) :
    Option (List Char) :=
  let files := fileNames.filter (fun f => endsWithLit ".md".toList f)
  let variations := candidateVariations projectName
  let step1 := variations.find? (fun v => files.contains v)
  let variationsLower := variations.map toLowerStr
  let step2 := files.find? (fun f => variationsLower.contains (toLowerStr f))
  let nameLower := toLowerStr projectName
  let nameVariations := [removeWs nameLower, collapseWs '_' nameLower, collapseWs '-' nameLower]
  let step3 := files.find? (fun f =>
    let fileLower := replaceFirstSub ".md".toList [] (toLowerStr f)
    nameVariations.any (fun v => fileLower == v || containsSub v fileLower))
  let step4 := files.head?
  (((step1.or step2).or step3).or step4)

def lookupFile (entries : List (List Char × List Char)) (name : List Char) : List Char :=
  ((entries.find? (fun e => e.1 == name)).map Prod.snd).getD []

def basicIndexContent (projectName : List Char) (mdFiles : List (List Char)) : List Char :=
  "# ".toList ++ projectName ++ "\n\n## Pages\n\n".toList
    ++ (mdFiles.map (fun f =>
          "- [".toList ++ replaceFirstSub ".md".toList [] f ++ "](".toList ++ f ++ ")\n".toList)).flatten

def createProjectIndexAction (entries : List (List Char × List Char))
    (projectName : List Char) : Option (List Char) :=
  match findIndexCandidate (entries.map Prod.fst) projectName with
  | some c => if c = "Index.md".toList then none else some (lookupFile entries c)
  | none =>
    some (basicIndexContent projectName
      ((entries.map Prod.fst).filter (fun f => endsWithLit ".md".toList f)))

def projectIndexResult (entries : List (List Char × List Char))
    (projectName : List Char) : List (List Char × List Char) :=
  match createProjectIndexAction entries projectName with
  | none => entries
  | some ct => entries.filter (fun e => e.1 != "Index.md".toList) ++ [("Index.md".toList, ct)]

/-! ## Theorems -/

theorem throttleRun_gap (m : Nat) :
    ∀ (ts : List ThrottleTask) (lt free : Nat), lt ≤ free →
      List.Chain' (fun p q : Nat × Nat => p.2 + m ≤ q.2) (throttleRun m lt free ts) ∧
      ∀ p ∈ (throttleRun m lt free ts).head?, lt + m ≤ p.2 := by
  intro ts
  induction ts with
  | nil => intro lt free _; simp [throttleRun]
  | cons t rest ih =>
    intro lt free h
    have hA : lt ≤ max free t.enq := h.trans (Nat.le_max_left _ _)
    have hstart : lt + m ≤ max free t.enq + (m - (max free t.enq - lt)) := by omega
    simp only [throttleRun]
    have hrec := ih (max free t.enq + (m - (max free t.enq - lt)))
      (max free t.enq + (m - (max free t.enq - lt)) + t.dur) (Nat.le_add_right _ _)
    refine ⟨List.chain'_cons'.mpr ⟨fun q hq => hrec.2 q hq, hrec.1⟩, ?_⟩
    intro p hp
    simp only [List.head?_cons, Option.mem_def, Option.some.injEq] at hp
    rw [← hp]
    exact hstart

theorem throttleRun_order (m : Nat) :
    ∀ (ts : List ThrottleTask) (lt free : Nat),
      (throttleRun m lt free ts).map Prod.fst = ts.map ThrottleTask.id := by
  intro ts
  induction ts with
  | nil => intro lt free; rfl
  | cons t rest ih => intro lt free; simp [throttleRun, ih]

/-- Claim C3: for any sequence of N tasks enqueued on a Throttle with
minimum interval m (enqueue instants nondecreasing, as produced by a single
JS thread), the tasks start executing in FIFO enqueue order, and every pair
of consecutive execution start times is at least m apart. -/
theorem C3_throttle_fifo_min_gap (m : Nat) (ts : List ThrottleTask)
    (henq : List.Chain' (fun a b : ThrottleTask => a.enq ≤ b.enq) ts) :
    (throttleRun m 0 0 ts).map Prod.fst = ts.map ThrottleTask.id ∧
    List.Chain' (fun p q : Nat × Nat => p.2 + m ≤ q.2) (throttleRun m 0 0 ts) :=
  ⟨throttleRun_order m ts 0 0, (throttleRun_gap m ts 0 0 (Nat.le_refl 0)).1⟩

theorem C3_throttle_fifo_min_gap_witness :
    (throttleRun 4 0 0 [⟨1, 0, 9⟩, ⟨2, 1, 0⟩, ⟨3, 7, 0⟩]).map Prod.fst =
      ([⟨1, 0, 9⟩, ⟨2, 1, 0⟩, ⟨3, 7, 0⟩] : List ThrottleTask).map ThrottleTask.id ∧
    List.Chain' (fun p q : Nat × Nat => p.2 + 4 ≤ q.2)
      (throttleRun 4 0 0 [⟨1, 0, 9⟩, ⟨2, 1, 0⟩, ⟨3, 7, 0⟩]) :=
  C3_throttle_fifo_min_gap 4 [⟨1, 0, 9⟩, ⟨2, 1, 0⟩, ⟨3, 7, 0⟩]
    (by simp [List.chain'_cons])

theorem retryGo_spec {β : Type} (req : Nat → ReqOutcome β) (b : Nat) :
    ∀ (K attempt r : Nat), (∀ i, i < K → isTransient (req (attempt + i)) = true) →
      isTransient (req (attempt + K)) = false → K ≤ r →
      retryGo req b attempt r =
        (req (attempt + K), attempt + K + 1,
         (List.range K).map (fun i => b * 2 ^ (attempt + i))) := by
  intro K
  induction K with
  | zero =>
    intro attempt r h hK hr
    simp only [Nat.add_zero] at hK
    match r with
    | 0 => simp [retryGo]
    | r' + 1 => simp [retryGo, hK]
  | succ K ih =>
    intro attempt r h hK hr
    match r with
    | 0 => omega
    | r' + 1 =>
      have h0 : isTransient (req attempt) = true := by
        have := h 0 (Nat.succ_pos K); simpa using this
      rw [retryGo]
      simp only [h0, if_true]
      have ihh := ih (attempt + 1) r'
        (fun i hi => by
          have := h (i + 1) (by omega)
          rw [show attempt + 1 + i = attempt + (i + 1) by omega]
          exact this)
        (by rw [show attempt + 1 + K = attempt + (K + 1) by omega]; exact hK)
        (by omega)
      rw [ihh]
      rw [show attempt + 1 + K = attempt + (K + 1) by omega]
      simp [List.range_succ_eq_map, List.map_map, Function.comp, Nat.succ_eq_add_one,
        show ∀ i, attempt + 1 + i = attempt + (i + 1) from fun i => by omega]

/-- Claim C4: if `requestFn` is transient on exactly its first K invocations
and then succeeds, and maxRetries ≥ K, then `retryRequest` resolves with the
K-th (successful) outcome, invokes `requestFn` exactly K+1 times, and waits
`baseDelay·2^0, …, baseDelay·2^(K-1)` before the respective retries. -/
theorem C4_retry_backoff_spec {β : Type} (req : Nat → ReqOutcome β)
    (K maxRetries baseDelay : Nat)
    (h : ∀ i, i < K → isTransient (req i) = true)
    (hK : isTransient (req K) = false)
    (hmax : K ≤ maxRetries) :
    retryRequest req maxRetries baseDelay =
      (req K, K + 1, (List.range K).map (fun i => baseDelay * 2 ^ i)) := by
  have := retryGo_spec req baseDelay K 0 maxRetries
    (fun i hi => by simpa using h i hi) (by simpa using hK) hmax
  simpa [retryRequest] using this

theorem C4_retry_backoff_spec_witness :
    retryRequest
      (fun i => if i < 2 then (⟨none, some 503, 0⟩ : ReqOutcome Nat) else ⟨none, some 200, 0⟩)
      5 5000 = (⟨none, some 200, 0⟩, 3, [5000, 10000]) :=
  (C4_retry_backoff_spec
    (fun i => if i < 2 then (⟨none, some 503, 0⟩ : ReqOutcome Nat) else ⟨none, some 200, 0⟩)
    2 5 5000 (by decide) (by decide) (by decide)).trans (by decide)

theorem getProjectsPages_spec {α : Type} (source : Nat → List α) :
    ∀ (K page fuel : Nat),
      (∀ i, i < K → (source (page + i)).length = NB_PROJECTS_PER_PAGE) →
      (source (page + K)).length ≠ NB_PROJECTS_PER_PAGE → K < fuel →
      getProjectsPages source fuel page =
        (((List.range (K + 1)).map (fun i => source (page + i))).flatten,
         (List.range (K + 1)).map (fun i => (page + i) * NB_PROJECTS_PER_PAGE)) := by
  intro K
  induction K with
  | zero =>
    intro page fuel h hK hf
    simp only [Nat.add_zero] at hK
    match fuel with
    | 0 => omega
    | f + 1 => simp [getProjectsPages, hK, show List.range 1 = [0] from by decide]
  | succ K ih =>
    intro page fuel h hK hf
    match fuel with
    | 0 => omega
    | f + 1 =>
      have h0 : (source page).length = NB_PROJECTS_PER_PAGE := by
        have := h 0 (Nat.succ_pos K); simpa using this
      rw [getProjectsPages]
      simp only [h0, if_true]
      have ihh := ih (page + 1) f
        (fun i hi => by
          have := h (i + 1) (by omega)
          rw [show page + 1 + i = page + (i + 1) by omega]
          exact this)
        (by rw [show page + 1 + K = page + (K + 1) by omega]; exact hK)
        (by omega)
      rw [ihh]
      simp [List.range_succ_eq_map, List.map_map, List.flatten_cons, Function.comp_def,
        Nat.succ_eq_add_one,
        show ∀ i, page + 1 + i = page + (i + 1) from fun i => by omega]

/-- Claim C5: when the listing source delivers K full pages of size 25
followed by a shorter page, `getProjects` issues exactly K+1 page requests
at offsets 0, 25, ..., 25K, and returns all entries accumulated in
discovery order; the run stops exactly at the first page with fewer entries
than the page size. -/
theorem C5_pagination_offsets {α : Type} (source : Nat → List α) (K fuel : Nat)
    (hfull : ∀ i, i < K → (source i).length = NB_PROJECTS_PER_PAGE)
    (hlast : (source K).length < NB_PROJECTS_PER_PAGE)
    (hfuel : K < fuel) :
    getProjects source fuel =
      (((List.range (K + 1)).map (fun i => source i)).flatten,
       (List.range (K + 1)).map (fun i => i * NB_PROJECTS_PER_PAGE)) := by
  have := getProjectsPages_spec source K 0 fuel
    (fun i hi => by simpa using hfull i hi)
    (by simp; omega) hfuel
  simpa [getProjects] using this

theorem C5_pagination_offsets_witness :
    getProjects (fun i => if i < 2 then List.range 25 else List.range 7) 3 =
      (((List.range 3).map
          (fun i => (fun j => if j < 2 then List.range 25 else List.range 7) i)).flatten,
       (List.range 3).map (fun i => i * NB_PROJECTS_PER_PAGE)) :=
  C5_pagination_offsets (fun i => if i < 2 then List.range 25 else List.range 7) 2 3
    (by decide) (by decide) (by decide)

/-- Claim C1 (counterexample): the per-page content fetch and the
per-attachment fetch execute their retry-wrapped request without enqueueing
it on the Throttle — `getWikiPage` and `getAttachment` contain no
`throttle.enqueue` — so not every Crawler network request passes through
the Throttle lane. -/
theorem C1_every_call_throttled_cex :
    (getWikiPageOp "proj" "Start").viaThrottle = false ∧
    (getAttachmentOp 42).viaThrottle = false :=
  ⟨rfl, rfl⟩

/-- Claim C1 (amended): every Crawler network request is wrapped in the
RetryPolicy, and the paginated project-listing fetch and the per-project
wiki-index fetch additionally run inside the shared Throttle lane; the
per-page content fetch and the per-attachment fetch are retried but never
enqueued on the Throttle. -/
theorem C1_throttle_retry_coverage (page : Nat) (ident enc : String) (aid : Nat) :
    (getProjectListPageOp page).viaThrottle = true ∧
    (getProjectListPageOp page).viaRetry = true ∧
    (getWikiPagesOp ident).viaThrottle = true ∧
    (getWikiPagesOp ident).viaRetry = true ∧
    (getWikiPageOp ident enc).viaRetry = true ∧
    (getWikiPageOp ident enc).viaThrottle = false ∧
    (getAttachmentOp aid).viaRetry = true ∧
    (getAttachmentOp aid).viaThrottle = false :=
  ⟨rfl, rfl, rfl, rfl, rfl, rfl, rfl, rfl⟩

/-- Claim C10: retries scheduled by `retryRequest` are issued directly from
the backoff timer and are never re-enqueued on the Throttle (the sources of
the K+1 attempts contain no throttle-lane entry, and an operation
contributes at most its single initial task to the Throttle queue — zero
for the unthrottled page/attachment fetches); consequently only first
attempts obey the minimum-interval spacing, and concretely a retry of the
first of five throttled tasks (transient first attempt, default 5000 ms
base delay) starts at 6200 ms while the fifth task starts at 6000 ms — a
gap of 200 ms, less than the 1200 ms minimum interval. -/
theorem C10_retry_bypasses_throttle :
    (∀ retries : Nat, (retryAttemptSources retries).count .throttleLane = 0) ∧
    (∀ page : Nat, opThrottleTasks (getProjectListPageOp page) = 1) ∧
    (∀ ident enc : String, opThrottleTasks (getWikiPageOp ident enc) = 0) ∧
    (∀ aid : Nat, opThrottleTasks (getAttachmentOp aid) = 0) ∧
    throttleRun throttleMinIntervalMs 0 0
        [⟨1, 0, 0⟩, ⟨2, 0, 0⟩, ⟨3, 0, 0⟩, ⟨4, 0, 0⟩, ⟨5, 0, 0⟩] =
      [(1, 1200), (2, 2400), (3, 3600), (4, 4800), (5, 6000)] ∧
    retryAttemptTime 1200 5000 1 = 6200 ∧
    6200 - 6000 < throttleMinIntervalMs := by
  refine ⟨?_, fun _ => rfl, fun _ _ => rfl, fun _ => rfl, by decide, by decide, by decide⟩
  intro retries
  rw [List.count_eq_zero]
  intro hmem
  rcases List.mem_cons.mp hmem with h | h
  · exact absurd h (by decide)
  · exact absurd (List.eq_of_mem_replicate h) (by decide)

theorem filterMap_filter_ne {τ σ : Type} [DecidableEq τ] (f : τ → Option σ) (t : τ)
    (hf : f t = none) :
    ∀ ts : List τ, ts.filterMap f = (ts.filter (fun x => x != t)).filterMap f := by
  intro ts
  induction ts with
  | nil => rfl
  | cons c rest ih =>
    by_cases hc : c = t
    · subst hc
      simp [List.filterMap_cons, List.filter_cons, hf, ih]
    · simp [List.filterMap_cons, List.filter_cons, hc, ih]

theorem getProjectsOutcome_parse_end {α : Type} (resp : Nat → ListResp α)
    (source : Nat → List α) :
    ∀ (K page : Nat) (acc : List α) (fuel : Nat),
      (∀ i, i < K → handleListPage (resp (page + i)) = some (source (page + i))) →
      (∀ i, i < K → (source (page + i)).length = NB_PROJECTS_PER_PAGE) →
      handleListPage (resp (page + K)) = some [] → K < fuel →
      getProjectsOutcome resp fuel page acc =
        .completed (acc ++ ((List.range K).map (fun i => source (page + i))).flatten) := by
  intro K
  induction K with
  | zero =>
    intro page acc fuel hok hlen hpe hf
    simp only [Nat.add_zero] at hpe
    match fuel with
    | 0 => omega
    | f + 1 =>
      rw [getProjectsOutcome, hpe]
      simp [NB_PROJECTS_PER_PAGE]
  | succ K ih =>
    intro page acc fuel hok hlen hpe hf
    match fuel with
    | 0 => omega
    | f + 1 =>
      have h0 := hok 0 (Nat.succ_pos K)
      have l0 := hlen 0 (Nat.succ_pos K)
      simp only [Nat.add_zero] at h0 l0
      rw [getProjectsOutcome, h0]
      simp only [l0, if_true]
      have ihh := ih (page + 1) (acc ++ source page) f
        (fun i hi => by
          have := hok (i + 1) (by omega)
          rw [show page + 1 + i = page + (i + 1) by omega]
          exact this)
        (fun i hi => by
          have := hlen (i + 1) (by omega)
          rw [show page + 1 + i = page + (i + 1) by omega]
          exact this)
        (by rw [show page + 1 + K = page + (K + 1) by omega]; exact hpe)
        (by omega)
      rw [ihh]
      simp [List.range_succ_eq_map, List.map_map, List.flatten_cons, Function.comp_def,
        Nat.succ_eq_add_one,
        show ∀ i, page + 1 + i = page + (i + 1) from fun i => by omega]

/-- Claim C2 (counterexample): a 401 on the second project-listing page
does not merely skip that page — the handler never invokes its
continuation, so `getProjects` stalls: the final callback never fires and
none of the 25 already-discovered projects is processed, instead of the run
proceeding with every remaining unit of work. -/
theorem C2_single_error_skip_cex :
    getProjectsOutcome
      (fun p => if p = 0 then (⟨none, some 200, some (.ok (List.range 25))⟩ : ListResp Nat)
                else ⟨none, some 401, none⟩) 3 0 [] = .stalled 1 := by
  decide

/-- Claim C2 (amended): no network or parse error raises an exception —
each handler either invokes its continuation or silently drops the unit.
A JSON-parse failure on a listing page makes the handler deliver the empty
list, ending pagination gracefully with the projects accumulated so far.
At the per-page and per-attachment level a failing unit contributes
nothing and every other unit is processed unchanged.  (A transport/401/
non-200 failure on a listing page, however, stalls discovery entirely — see
the counterexample.) -/
theorem C2_error_degradation :
    (∀ (α : Type) (r : ListResp α), r.error = none → r.status = some 200 →
      r.body = some .parseError → handleListPage r = some []) ∧
    (∀ (α : Type) (resp : Nat → ListResp α) (source : Nat → List α) (K fuel : Nat),
      (∀ i, i < K → handleListPage (resp i) = some (source i)) →
      (∀ i, i < K → (source i).length = NB_PROJECTS_PER_PAGE) →
      handleListPage (resp K) = some [] → K < fuel →
      getProjectsOutcome resp fuel 0 [] =
        .completed (((List.range K).map (fun i => source i)).flatten)) ∧
    (∀ (π : Type) (f : String → Option π) (t : String) (ts : List String), f t = none →
      exportedPages f ts = exportedPages f (ts.filter (fun x => x != t))) ∧
    (∀ (π : Type) (f : String → Option π) (t : String) (ts : List String) (pg : π),
      t ∈ ts → f t = some pg → pg ∈ exportedPages f ts) ∧
    (∀ (γ : Type) (f : Nat → Option γ) (a : Nat) (ids : List Nat), f a = none →
      savedAttachments f ids = savedAttachments f (ids.filter (fun x => x != a))) := by
  refine ⟨?_, ?_, ?_, ?_, ?_⟩
  · intro α r he hs hb
    simp [handleListPage, he, hs, hb, statusNot200]
  · intro α resp source K fuel hok hlen hpe hf
    have := getProjectsOutcome_parse_end resp source K 0 [] fuel
      (fun i hi => by simpa using hok i hi)
      (fun i hi => by simpa using hlen i hi)
      (by simpa using hpe) hf
    simpa using this
  · intro π f t ts hf
    exact filterMap_filter_ne f t hf ts
  · intro π f t ts pg ht hf
    exact List.mem_filterMap.mpr ⟨t, ht, hf⟩
  · intro γ f a ids hf
    exact filterMap_filter_ne f a hf ids

theorem C2_error_degradation_witness :
    handleListPage (⟨none, some 200, some .parseError⟩ : ListResp Nat) = some [] ∧
    getProjectsOutcome
      (fun p => if p = 0 then (⟨none, some 200, some (.ok (List.range 25))⟩ : ListResp Nat)
                else ⟨none, some 200, some .parseError⟩) 2 0 [] =
      .completed (((List.range 1).map
        (fun i => (fun _ : Nat => List.range 25) i)).flatten) ∧
    exportedPages (fun x => if x = "Bad" then none else some x) ["A", "Bad", "B"] =
      exportedPages (fun x => if x = "Bad" then none else some x)
        (["A", "Bad", "B"].filter (fun x => x != "Bad")) ∧
    "A" ∈ exportedPages (fun x => if x = "Bad" then none else some x) ["A", "Bad", "B"] ∧
    savedAttachments (fun a => if a = 9 then none else some a) [3, 9, 4] =
      savedAttachments (fun a => if a = 9 then none else some a)
        ([3, 9, 4].filter (fun x => x != 9)) :=
  ⟨C2_error_degradation.1 Nat ⟨none, some 200, some .parseError⟩ rfl rfl rfl,
   C2_error_degradation.2.1 Nat
     (fun p => if p = 0 then (⟨none, some 200, some (.ok (List.range 25))⟩ : ListResp Nat)
               else ⟨none, some 200, some .parseError⟩)
     (fun _ => List.range 25) 1 2 (by decide) (by decide) (by decide) (by decide),
   C2_error_degradation.2.2.1 String (fun x => if x = "Bad" then none else some x)
     "Bad" ["A", "Bad", "B"] (by decide),
   C2_error_degradation.2.2.2.1 String (fun x => if x = "Bad" then none else some x)
     "A" ["A", "Bad", "B"] "A" (by decide) (by decide),
   C2_error_degradation.2.2.2.2 Nat (fun a => if a = 9 then none else some a)
     9 [3, 9, 4] (by decide)⟩

theorem getLast?_append_cons :
    ∀ (l : List Char) (c : Char) (cs : List Char),
      (l ++ c :: cs).getLast? = (c :: cs).getLast? := by
  intro l
  induction l with
  | nil => intro c cs; rfl
  | cons a l ih =>
    intro c cs
    rw [List.cons_append]
    rw [show (a :: (l ++ c :: cs)).getLast? = (l ++ c :: cs).getLast? from ?_]
    · exact ih c cs
    · match h : l ++ c :: cs with
      | [] => exact absurd h (by simp)
      | b :: bs => simp [List.getLast?]

theorem stripSlash_mainOutputDir (cfg : List Char) :
    stripSlash (mainOutputDir cfg) = stripSlash cfg := by
  unfold mainOutputDir stripSlash
  by_cases h : cfg.getLast? = some '/'
  · simp [h]
  · have h2 : (cfg ++ ['/']).getLast? = some '/' := by
      rw [getLast?_append_cons]; rfl
    simp [h, h2]

/-- Claim C7 (counterexample): with `outputDir` configured as
`/data/export`, the Exporter writes under `/data/export/` while the
post-passes (run from script directory `/app`) read the fixed directory
`/app/output` — not the tree the Exporter produced. -/
theorem C7_output_tree_cex :
    ¬ sameTree (mainOutputDir "/data/export".toList) (fixLinksOutputDir "/app".toList) := by
  decide

/-- Claim C7 (amended): LinkRewriter and IndexBuilder both operate over the
fixed directory `<scriptDir>/output` (they agree with each other), and this
coincides with the tree the Exporter produced exactly when the configured
output directory, up to a trailing slash, is `<scriptDir>/output`. -/
theorem C7_post_pass_tree (cfg dirname : List Char) :
    fixLinksOutputDir dirname = createIndexesOutputDir dirname ∧
    (sameTree (mainOutputDir cfg) (fixLinksOutputDir dirname) ↔
      stripSlash cfg = dirname ++ '/' :: "output".toList) := by
  refine ⟨rfl, ?_⟩
  unfold sameTree fixLinksOutputDir
  rw [stripSlash_mainOutputDir]
  have h : stripSlash (dirname ++ '/' :: "output".toList) = dirname ++ '/' :: "output".toList := by
    unfold stripSlash
    rw [getLast?_append_cons]
    simp
  rw [h]

/-- Claim C8: for a project named "My Project" whose directory holds
exactly the exported file `My_Project.md`, the pass writes an `Index.md`
whose content equals that file's content, leaving `My_Project.md` in
place; for a directory with no `.md` file at all, the generated `Index.md`
is a heading with the project name and no page links; and whenever the
winning candidate is literally `Index.md`, nothing is written. -/
theorem C8_index_builder :
    (∀ c : List Char,
      projectIndexResult [("My_Project.md".toList, c)] "My Project".toList =
        [("My_Project.md".toList, c), ("Index.md".toList, c)]) ∧
    (∀ name : List Char,
      createProjectIndexAction [] name =
        some ("# ".toList ++ name ++ "\n\n## Pages\n\n".toList)) ∧
    (∀ (entries : List (List Char × List Char)) (name : List Char),
      findIndexCandidate (entries.map Prod.fst) name = some "Index.md".toList →
      createProjectIndexAction entries name = none) := by
  refine ⟨?_, ?_, ?_⟩
  · intro c
    rfl
  · intro name
    have h : createProjectIndexAction [] name = some (basicIndexContent name []) := rfl
    rw [h]
    simp [basicIndexContent]
  · intro entries name h
    unfold createProjectIndexAction
    rw [h]
    simp

theorem C8_index_builder_witness :
    projectIndexResult [("My_Project.md".toList, "CONTENT".toList)] "My Project".toList =
      [("My_Project.md".toList, "CONTENT".toList), ("Index.md".toList, "CONTENT".toList)] ∧
    createProjectIndexAction [] "My Project".toList =
      some ("# ".toList ++ "My Project".toList ++ "\n\n## Pages\n\n".toList) ∧
    createProjectIndexAction [("Index.md".toList, "x".toList)] "P".toList = none :=
  ⟨C8_index_builder.1 "CONTENT".toList, C8_index_builder.2.1 "My Project".toList,
   C8_index_builder.2.2 [("Index.md".toList, "x".toList)] "P".toList (by decide)⟩

theorem hasDoubleBracket_cons_false {c : Char} {rest : List Char}
    (h : hasDoubleBracket (c :: rest) = false) : hasDoubleBracket rest = false := by
  match rest with
  | [] => rfl
  | b :: bs =>
    simp only [hasDoubleBracket, Bool.or_eq_false_iff] at h
    exact h.2

theorem matchWikiAt_none : ∀ cs, hasDoubleBracket cs = false → matchWikiAt cs = none := by
  intro cs h
  match cs with
  | [] => rfl
  | [a] => rfl
  | a :: b :: rest =>
    have hab : ¬(a = '[' ∧ b = '[') := by
      intro hab
      simp [hasDoubleBracket, hab.1, hab.2] at h
    simp [matchWikiAt, hab]

theorem scanWiki_id : ∀ (fuel : Nat) (cs : List Char),
    hasDoubleBracket cs = false → scanWiki fuel cs = cs := by
  intro fuel
  induction fuel with
  | zero => intro cs _; rfl
  | succ f ih =>
    intro cs h
    match cs with
    | [] => rfl
    | c :: rest =>
      rw [scanWiki, matchWikiAt_none _ h]
      rw [ih rest (hasDoubleBracket_cons_false h)]

theorem leadsWith_containsSub {n : List Char} : ∀ {cs : List Char},
    leadsWith n cs = true → containsSub n cs = true := by
  intro cs h
  match cs with
  | [] =>
    match n with
    | [] => rfl
    | a :: as => exact absurd h (by simp [leadsWith])
  | c :: t => simp [containsSub, h]

theorem containsSub_cons {n : List Char} (c : Char) {rest : List Char}
    (h : containsSub n rest = true) : containsSub n (c :: rest) = true := by
  simp [containsSub, h]

theorem parseLit_leadsWith : ∀ (xs cs r : List Char),
    parseLit xs cs = some r → leadsWith xs cs = true := by
  intro xs
  induction xs with
  | nil => intro cs r _; rfl
  | cons a as ih =>
    intro cs r h
    match cs with
    | [] => exact absurd h (by simp [parseLit])
    | b :: bs =>
      rw [parseLit] at h
      by_cases hab : a = b
      · rw [if_pos hab] at h
        simp [leadsWith, hab]
        exact ih bs r h
      · rw [if_neg hab] at h
        exact absurd h (by simp)

theorem parseProjWiki_some_leadsWith (url cs : List Char)
    {x : (List Char × List Char × List Char) × List Char}
    (h : parseProjWiki url cs = some x) : leadsWith url cs = true := by
  cases e : parseLit url cs with
  | none =>
    unfold parseProjWiki at h
    rw [e] at h
    simp at h
  | some cs1 => exact parseLit_leadsWith url cs cs1 e

theorem lazySearch_nil {β : Type} (k : List Char → Option β) (fuel : Nat) :
    lazySearch k fuel [] = none := by
  cases fuel <;> rfl

theorem lazySearch_parseProjWiki_contains (url : List Char) :
    ∀ (fuel : Nat) (cs t : List Char) (b : (List Char × List Char × List Char) × List Char),
      lazySearch (parseProjWiki url) fuel cs = some (t, b) → containsSub url cs = true := by
  intro fuel
  induction fuel with
  | zero => intro cs t b h; exact absurd h (by simp [lazySearch])
  | succ f ih =>
    intro cs t b h
    rcases cs with _ | ⟨c, rest⟩
    · exact absurd h (by simp [lazySearch])
    · simp only [lazySearch] at h
      by_cases hnl : c = '\n'
      · simp [hnl] at h
      · rw [if_neg hnl] at h
        by_cases hbr : c = ']'
        · rw [if_pos hbr] at h
          rcases rest with _ | ⟨r, rest2⟩
          · dsimp only at h
            rw [lazySearch_nil] at h
            simp at h
          · dsimp only at h
            by_cases hp : r = '('
            · rw [if_pos hp] at h
              rcases e : parseProjWiki url rest2 with _ | v
              · rw [e] at h
                rcases e2 : lazySearch (parseProjWiki url) f (r :: rest2) with _ | ⟨t2, b2⟩
                · rw [e2] at h; simp at h
                · exact containsSub_cons c (ih (r :: rest2) t2 b2 e2)
              · have := parseProjWiki_some_leadsWith url rest2 e
                exact containsSub_cons c (containsSub_cons r (leadsWith_containsSub this))
            · rw [if_neg hp] at h
              rcases e2 : lazySearch (parseProjWiki url) f (r :: rest2) with _ | ⟨t2, b2⟩
              · rw [e2] at h; simp at h
              · exact containsSub_cons c (ih (r :: rest2) t2 b2 e2)
        · rw [if_neg hbr] at h
          rcases e2 : lazySearch (parseProjWiki url) f rest with _ | ⟨t2, b2⟩
          · rw [e2] at h; simp at h
          · exact containsSub_cons c (ih rest t2 b2 e2)

theorem scanWikiLinks_id (url cur : List Char) : ∀ (fuel : Nat) (cs : List Char),
    containsSub url cs = false → scanWikiLinks url cur fuel cs = cs := by
  intro fuel
  induction fuel with
  | zero => intro cs _; rfl
  | succ f ih =>
    intro cs h
    match cs with
    | [] => rfl
    | c :: rest =>
      have hrest : containsSub url rest = false := by
        simp only [containsSub, Bool.or_eq_false_iff] at h
        exact h.2
      rw [scanWikiLinks]
      by_cases hc : c = '['
      · rw [if_pos hc]
        rcases e : lazySearch (parseProjWiki url) rest.length rest with _ | ⟨t2, b2⟩
        · show c :: scanWikiLinks url cur f rest = c :: rest
          rw [ih rest hrest]
        · exfalso
          have := lazySearch_parseProjWiki_contains url rest.length rest t2 b2 e
          rw [this] at hrest
          exact Bool.noConfusion hrest
      · rw [if_neg hc, ih rest hrest]

/-- Claim C9 (counterexample): category-1 rewriting is not idempotent on
all first-pass output — on input `[[a[[b]]]]` the first pass yields
`[a[[b](a[[b.md)]]`, which still matches the `[[...]]` pattern and is
rewritten again by a second pass. -/
theorem C9_idempotence_cex :
    rewriteCat12 "http://rm".toList "proj".toList
        (rewriteCat12 "http://rm".toList "proj".toList "[[a[[b]]]]".toList) ≠
      rewriteCat12 "http://rm".toList "proj".toList "[[a[[b]]]]".toList := by
  decide

/-- Claim C9 (amended): a second application of the category-1 and
category-2 transformations leaves first-pass output unchanged whenever that
output no longer contains two adjacent `[` characters (so the `[[...]]`
pattern cannot match) and no longer contains the configured server URL as a
substring (so the absolute-URL pattern cannot match); this holds for
ordinary rewritten content, but page names can smuggle these shapes back
in, as the counterexample shows. -/
theorem C9_idempotence_restricted (url cur cs : List Char)
    (h1 : hasDoubleBracket (rewriteCat12 url cur cs) = false)
    (h2 : containsSub url (rewriteCat12 url cur cs) = false) :
    rewriteCat12 url cur (rewriteCat12 url cur cs) = rewriteCat12 url cur cs := by
  have e1 : replaceWikiSyntax (rewriteCat12 url cur cs) = rewriteCat12 url cur cs :=
    scanWiki_id _ _ h1
  have e2 : replaceAbsoluteWikiLinks url cur (rewriteCat12 url cur cs) =
      rewriteCat12 url cur cs :=
    scanWikiLinks_id url cur _ _ h2
  calc rewriteCat12 url cur (rewriteCat12 url cur cs)
      = replaceAbsoluteWikiLinks url cur (replaceWikiSyntax (rewriteCat12 url cur cs)) := rfl
    _ = replaceAbsoluteWikiLinks url cur (rewriteCat12 url cur cs) := by rw [e1]
    _ = rewriteCat12 url cur cs := e2

theorem C9_idempotence_restricted_witness :
    rewriteCat12 "http://rm".toList "proj".toList
        (rewriteCat12 "http://rm".toList "proj".toList "see [[My Page]]".toList) =
      rewriteCat12 "http://rm".toList "proj".toList "see [[My Page]]".toList :=
  C9_idempotence_restricted "http://rm".toList "proj".toList "see [[My Page]]".toList
    (by decide) (by decide)

theorem takeWhile_app_all (p : Char → Bool) :
    ∀ (xs : List Char) (y : Char) (ys : List Char),
      (∀ c ∈ xs, p c = true) → p y = false →
      (xs ++ y :: ys).takeWhile p = xs := by
  intro xs
  induction xs with
  | nil => intro y ys _ hy; simp [List.takeWhile_cons, hy]
  | cons a as ih =>
    intro y ys hall hy
    have ha := hall a (List.mem_cons_self a as)
    simp [List.takeWhile_cons, ha,
      ih y ys (fun c hc => hall c (List.mem_cons_of_mem a hc)) hy]

theorem dropWhile_app_all (p : Char → Bool) :
    ∀ (xs : List Char) (y : Char) (ys : List Char),
      (∀ c ∈ xs, p c = true) → p y = false →
      (xs ++ y :: ys).dropWhile p = y :: ys := by
  intro xs
  induction xs with
  | nil => intro y ys _ hy; simp [List.dropWhile_cons, hy]
  | cons a as ih =>
    intro y ys hall hy
    have ha := hall a (List.mem_cons_self a as)
    simp [List.dropWhile_cons, ha,
      ih y ys (fun c hc => hall c (List.mem_cons_of_mem a hc)) hy]

theorem parseLit_self_app : ∀ xs ys : List Char, parseLit xs (xs ++ ys) = some ys := by
  intro xs
  induction xs with
  | nil => intro ys; rfl
  | cons a as ih => intro ys; simp [parseLit, ih]

theorem lazySearch_through {β : Type} (k : List Char → Option β) :
    ∀ (t tail : List Char) (b : β) (fuel : Nat),
      (∀ c ∈ t, c ≠ ']' ∧ c ≠ '\n') → t.length < fuel → k tail = some b →
      lazySearch k fuel (t ++ ']' :: '(' :: tail) = some (t, b) := by
  intro t
  induction t with
  | nil =>
    intro tail b fuel _ hf hk
    match fuel with
    | 0 => omega
    | f + 1 => simp [lazySearch, hk]
  | cons a t' ih =>
    intro tail b fuel hok hf hk
    match fuel with
    | 0 => omega
    | f + 1 =>
      have ha := hok a (List.mem_cons_self a t')
      simp only [List.cons_append, lazySearch]
      rw [if_neg ha.2, if_neg ha.1]
      simp only [List.append_eq]
      rw [ih tail b f (fun c hc => hok c (List.mem_cons_of_mem a hc)) (by simp at hf; omega) hk]

theorem parseAttachmentIdFn_exact (dl : Bool) (id fn : List Char)
    (hid : id ≠ []) (hdig : ∀ c ∈ id, c.isDigit = true)
    (hfn : fn ≠ []) (hfnp : ∀ c ∈ fn, c ≠ ')') :
    parseAttachmentIdFn dl (id ++ '/' :: (fn ++ [')'])) = some ((dl, id, fn), []) := by
  have hidE : id.isEmpty = false := by
    cases id with
    | nil => exact absurd rfl hid
    | cons _ _ => rfl
  have hfnE : fn.isEmpty = false := by
    cases fn with
    | nil => exact absurd rfl hfn
    | cons _ _ => rfl
  have hfnall : ∀ c ∈ fn, isNotRParen c = true := by
    intro c hc
    simp [isNotRParen, hfnp c hc]
  have htw_id : (id ++ '/' :: (fn ++ [')'])).takeWhile Char.isDigit = id :=
    takeWhile_app_all Char.isDigit id '/' (fn ++ [')']) hdig (by decide)
  have hdw_id : (id ++ '/' :: (fn ++ [')'])).dropWhile Char.isDigit = '/' :: (fn ++ [')']) :=
    dropWhile_app_all Char.isDigit id '/' (fn ++ [')']) hdig (by decide)
  have htw_fn : (fn ++ [')']).takeWhile isNotRParen = fn :=
    takeWhile_app_all isNotRParen fn ')' [] hfnall (by decide)
  have hdw_fn : (fn ++ [')']).dropWhile isNotRParen = [')'] :=
    dropWhile_app_all isNotRParen fn ')' [] hfnall (by decide)
  unfold parseAttachmentIdFn
  simp only [htw_id, hidE, hdw_id, Bool.false_eq_true, if_false]
  simp only [if_true, htw_fn, hfnE, Bool.false_eq_true, if_false, hdw_fn]

theorem parseAttachment_exact (url : List Char) (dl : Bool) (id fn : List Char)
    (hid : id ≠ []) (hdig : ∀ c ∈ id, c.isDigit = true)
    (hfn : fn ≠ []) (hfnp : ∀ c ∈ fn, c ≠ ')') :
    parseAttachment url
      (url ++ ("/attachments/".toList ++
        ((if dl then "download/".toList else []) ++ (id ++ '/' :: (fn ++ [')']))))) =
      some ((dl, id, fn), []) := by
  cases dl with
  | true =>
    unfold parseAttachment
    rw [parseLit_self_app]
    dsimp only
    rw [show (if true then "download/".toList else []) = "download/".toList from rfl]
    rw [parseLit_self_app]
    dsimp only
    rw [parseLit_self_app]
    dsimp only
    exact parseAttachmentIdFn_exact true id fn hid hdig hfn hfnp
  | false =>
    have hnone : parseLit "download/".toList (id ++ '/' :: (fn ++ [')'])) = none := by
      rcases id with _ | ⟨d0, id'⟩
      · exact absurd rfl hid
      · have hd0 : d0.isDigit = true := hdig d0 (List.mem_cons_self d0 id')
        have hne : ¬(('d' : Char) = d0) := by
          intro he
          rw [← he] at hd0
          exact absurd hd0 (by decide)
        simp [parseLit, hne]
    unfold parseAttachment
    rw [parseLit_self_app]
    dsimp only
    rw [show (if false then "download/".toList else []) = [] from rfl]
    rw [List.nil_append, parseLit_self_app]
    dsimp only
    rw [hnone]
    exact parseAttachmentIdFn_exact false id fn hid hdig hfn hfnp

theorem scanAttachments_nil (url : List Char) (fsDirs : List (List Char × List (List Char)))
    (cur : List Char) : ∀ fuel : Nat, scanAttachments url fsDirs cur fuel [] = ([], 0) := by
  intro fuel
  cases fuel <;> rfl

theorem scanAttachments_single (url : List Char)
    (fsDirs : List (List Char × List (List Char))) (cur : List Char)
    (t tail : List Char) (dl : Bool) (id fn : List Char)
    (ht : ∀ c ∈ t, c ≠ ']' ∧ c ≠ '\n')
    (hk : parseAttachment url tail = some ((dl, id, fn), [])) :
    ∀ fuel : Nat, 0 < fuel →
      scanAttachments url fsDirs cur fuel ('!' :: '[' :: (t ++ ']' :: '(' :: tail)) =
        match resolveAttachment fsDirs cur (decodePercent fn) with
        | some tgt => ('!' :: '[' :: t ++ ']' :: '(' :: tgt ++ ')' :: ([] : List Char), 0)
        | none => (attachmentOriginal url t dl id fn ++ ([] : List Char), 0 + 1) := by
  intro fuel hfuel
  match fuel with
  | 0 => omega
  | f + 1 =>
    rw [scanAttachments]
    dsimp only
    rw [if_pos ⟨rfl, rfl⟩]
    rw [lazySearch_through (parseAttachment url) t tail ((dl, id, fn), [])
      (t ++ ']' :: '(' :: tail).length ht
      (by simp only [List.length_append, List.length_cons]; omega) hk]
    dsimp only
    simp only [scanAttachments_nil]

/-- Claim C6 (counterexample): the attachment pattern requires the image
marker `![` — a plain markdown link whose target matches
`<serverUrl>/attachments/download/<id>/<filename>` is left untouched even
though the decoded file exists in the current project's attachments
directory, where the claim requires it to be rewritten to
`attachments/<filename>`. -/
theorem C6_image_only_cex :
    replaceAttachmentLinks "http://rm".toList [("proj".toList, ["a.png".toList])] "proj".toList
        "[doc](http://rm/attachments/download/1/a.png)".toList =
      ("[doc](http://rm/attachments/download/1/a.png)".toList, 0) ∧
    decodePercent "a.png".toList ∈
      attachmentsOf [("proj".toList, ["a.png".toList])] "proj".toList := by
  decide

/-- Claim C6 (amended): for every markdown *image* whose target matches
`<configuredServerUrl>/attachments/[download/]<id>/<filename>`, the
rewriter URL-decodes `<filename>`; if a file of that name exists in the
current project's attachments directory the target becomes
`attachments/<filename>` (percent-re-encoded); otherwise the first project
directory in listing order whose attachments contain that name yields
`../<thatProject>/attachments/<filename>`; if no directory contains it,
the link text is left unchanged and a warning is emitted.  Plain (non-image)
links are never rewritten, per the counterexample. -/
theorem C6_attachment_rewrite (url t id fn cur : List Char)
    (fsDirs : List (List Char × List (List Char))) (dl : Bool)
    (ht : ∀ c ∈ t, c ≠ ']' ∧ c ≠ '\n')
    (hid : id ≠ []) (hdig : ∀ c ∈ id, c.isDigit = true)
    (hfn : fn ≠ []) (hfnp : ∀ c ∈ fn, c ≠ ')') :
    ((attachmentsOf fsDirs cur).contains (decodePercent fn) = true →
      replaceAttachmentLinks url fsDirs cur (attachmentOriginal url t dl id fn) =
        ('!' :: '[' :: t ++ ']' :: '(' :: "attachments/".toList
           ++ encodeURIComponent (decodePercent fn) ++ [')'], 0)) ∧
    (∀ pr : List Char × List (List Char),
      (attachmentsOf fsDirs cur).contains (decodePercent fn) = false →
      fsDirs.find? (fun q => q.2.contains (decodePercent fn)) = some pr →
      replaceAttachmentLinks url fsDirs cur (attachmentOriginal url t dl id fn) =
        ('!' :: '[' :: t ++ ']' :: '(' :: '.' :: '.' :: '/' :: pr.1 ++ '/' ::
           "attachments/".toList ++ encodeURIComponent (decodePercent fn) ++ [')'], 0)) ∧
    ((attachmentsOf fsDirs cur).contains (decodePercent fn) = false →
      fsDirs.find? (fun q => q.2.contains (decodePercent fn)) = none →
      replaceAttachmentLinks url fsDirs cur (attachmentOriginal url t dl id fn) =
        (attachmentOriginal url t dl id fn, 1)) := by
  have hshape : attachmentOriginal url t dl id fn =
      '!' :: '[' :: (t ++ ']' :: '(' ::
        (url ++ ("/attachments/".toList ++
          ((if dl then "download/".toList else []) ++ (id ++ '/' :: (fn ++ [')'])))))) := by
    simp [attachmentOriginal, List.append_assoc]
  have hparse := parseAttachment_exact url dl id fn hid hdig hfn hfnp
  have hmain : replaceAttachmentLinks url fsDirs cur (attachmentOriginal url t dl id fn) =
      match resolveAttachment fsDirs cur (decodePercent fn) with
      | some tgt => ('!' :: '[' :: t ++ ']' :: '(' :: tgt ++ ')' :: ([] : List Char), 0)
      | none => (attachmentOriginal url t dl id fn ++ ([] : List Char), 0 + 1) := by
    unfold replaceAttachmentLinks
    conv_lhs => rw [hshape]
    exact scanAttachments_single url fsDirs cur t
      (url ++ ("/attachments/".toList ++
        ((if dl then "download/".toList else []) ++ (id ++ '/' :: (fn ++ [')'])))))
      dl id fn ht hparse _ (by simp)
  refine ⟨?_, ?_, ?_⟩
  · intro hloc
    have hres : resolveAttachment fsDirs cur (decodePercent fn) =
        some ("attachments/".toList ++ encodeURIComponent (decodePercent fn)) := by
      unfold resolveAttachment
      rw [if_pos hloc]
    rw [hmain, hres]
    dsimp only
    simp [List.append_assoc]
  · intro pr hloc hfind
    have hres : resolveAttachment fsDirs cur (decodePercent fn) =
        some ('.' :: '.' :: '/' :: pr.1 ++ '/' :: "attachments/".toList
          ++ encodeURIComponent (decodePercent fn)) := by
      unfold resolveAttachment
      rw [if_neg (by rw [hloc]; decide), hfind]
    rw [hmain, hres]
    dsimp only
    simp [List.append_assoc]
  · intro hloc hfind
    have hres : resolveAttachment fsDirs cur (decodePercent fn) = none := by
      unfold resolveAttachment
      rw [if_neg (by rw [hloc]; decide), hfind]
    rw [hmain, hres]
    simp

theorem C6_attachment_rewrite_witness :
    replaceAttachmentLinks "http://rm".toList [("proj".toList, ["My File.png".toList])]
        "proj".toList
        (attachmentOriginal "http://rm".toList "img".toList true "42".toList
          "My%20File.png".toList) =
      ('!' :: '[' :: "img".toList ++ ']' :: '(' :: "attachments/".toList
         ++ encodeURIComponent (decodePercent "My%20File.png".toList) ++ [')'], 0) :=
  (C6_attachment_rewrite "http://rm".toList "img".toList "42".toList "My%20File.png".toList
      "proj".toList [("proj".toList, ["My File.png".toList])] true
      (by decide) (by decide) (by decide) (by decide) (by decide)).1 (by decide)

end RedmineExporter
